import Mathlib

/-!
Shallow embedding of `death.py` (ArchipelagoDeathLink): the durable death-link
queue, the outbound dedup registry, the contributor / player stats maps, the
inbound relay classification (`server_to_client`), the send path
(`send_deathlink`) and one iteration of the staged dispatcher
(`staged_deathlink_dispatcher`).

Modelling conventions:
* Python strings are modelled as `List Char` where line/whitespace structure
  matters (queue file contents, contributor names), and as `String` where they
  are only compared for equality (JSON string payloads).
* The durable queue file is a `List Char`; a missing file behaves exactly like
  an empty one in the source (both read back as the empty queue), so the file
  is modelled as its contents.
* Values produced by `json.loads` are modelled by the inductive `Json`.
* Environment effects are inputs: the outcome of `archipelago_ws.send` is a
  `Bool` (`false` = the awaited send raised), `random.randint` consumes a
  `Nat` seed, and `uuid.uuid4()` is modelled by a fresh-nonce counter (only
  freshness of the generated identifier is relevant).
* A raised-and-caught Python exception inside the per-message classifier is
  modelled with `Except`, the error payload carrying the state at raise time.
-/

/-- A parsed JSON value as produced by Python's `json.loads`: `null`, `bool`,
number, string, array, or object (a Python `dict`, insertion-ordered with
distinct keys). -/
inductive Json where
  | null
  | bool (b : Bool)
  | num (n : Int)
  | str (s : String)
  | arr (xs : List Json)
  | obj (kvs : List (String × Json))

/-- `d.get(k)` on a parsed JSON object (`None`, i.e. `Option.none`, when the
key is absent or the value is not a `dict`). -/
def Json.get? : Json → String → Option Json
  | .obj kvs, k => (kvs.find? (fun p => p.1 == k)).map (·.2)
  | _, _ => none

/-- `isinstance(v, dict)` -/
def Json.isDict : Json → Bool
  | .obj _ => true
  | _ => false

/-- Python `==` between two parsed JSON values that are usable as dict keys
(hashable: `null`, booleans, numbers, strings). Cross-type comparisons are
`False` in Python; the `1 == True` numeric coincidence of Python booleans is
not modelled (no claim touches it). -/
def pyKeyEq : Json → Json → Bool
  | .null, .null => true
  | .bool a, .bool b => a == b
  | .num a, .num b => a == b
  | .str a, .str b => a == b
  | _, _ => false

-- ----------------- Python string / text-file primitives -----------------

/-- Python `str.isspace` on a single character: the whitespace set stripped by
`str.strip()`. -/
def pyIsSpace (c : Char) : Bool :=
  c ∈ ['\t', '\n', '\x0b', '\x0c', '\r', '\x1c', '\x1d', '\x1e', '\x1f', ' ',
       '\u0085', '\u00a0', '\u1680', '\u2000', '\u2001', '\u2002', '\u2003',
       '\u2004', '\u2005', '\u2006', '\u2007', '\u2008', '\u2009', '\u200a',
       '\u2028', '\u2029', '\u202f', '\u205f', '\u3000']

/-- Python `str.strip()`: remove leading and trailing whitespace. -/
def pyStrip (l : List Char) : List Char :=
  (((l.dropWhile pyIsSpace).reverse).dropWhile pyIsSpace).reverse

/-- First pass of universal-newline translation on text-mode reads:
each `"\r\n"` pair becomes `'\n'`. -/
def normCRLF : List Char → List Char
  | [] => []
  | [c] => [c]
  | c₁ :: c₂ :: cs =>
    if c₁ = '\r' ∧ c₂ = '\n' then '\n' :: normCRLF cs
    else c₁ :: normCRLF (c₂ :: cs)

/-- Universal-newline translation applied by Python text-mode reads:
`"\r\n"` and lone `'\r'` both become `'\n'`. -/
def normNl (l : List Char) : List Char :=
  (normCRLF l).map (fun c => if c = '\r' then '\n' else c)

/-- Accumulating splitter: `(splitNlAux l).1` is the segment before the first
`'\n'` and `(splitNlAux l).2` the remaining segments, so that
`(splitNlAux l).1 :: (splitNlAux l).2` is `l` split at every `'\n'`. -/
def splitNlAux : List Char → List Char × List (List Char)
  | [] => ([], [])
  | c :: cs =>
    if c = '\n' then ([], (splitNlAux cs).1 :: (splitNlAux cs).2)
    else (c :: (splitNlAux cs).1, (splitNlAux cs).2)

/-- Split a text at every `'\n'` (iterating over the lines of a file, with the
line terminators removed by the subsequent `strip`). -/
def splitNl (l : List Char) : List (List Char) :=
  (splitNlAux l).1 :: (splitNlAux l).2

/-- `"\n".join(queue)` -/
def joinNl : List (List Char) → List Char
  | [] => []
  | [q] => q
  | q :: qs => q ++ '\n' :: joinNl qs

-- ----------------- Queue helpers (death.py lines 105-129) -----------------

/-- Reading the persisted queue:
`[line.strip() for line in f if line.strip()]` applied to the file's contents
after universal-newline translation. -/
def readQueue (file : List Char) : List (List Char) :=
  ((splitNl (normNl file)).map pyStrip).filter (fun q => !q.isEmpty)

/-- `enqueue_deathlinks(name, count)`: read the queue, append
`max(0, int(count))` copies of `name`, rewrite the file as `"\n".join(queue)`,
return the new length. Result: (new file contents, returned length). -/
def enqueue_deathlinks (file : List Char) (name : List Char) (count : Int) :
    List Char × Nat :=
  let queue := readQueue file ++ List.replicate (max 0 count).toNat name
  (joinNl queue, queue.length)

/-- `dequeue_deathlink()`: read the queue; if empty return `(None, 0)` without
rewriting the file, else pop the head, rewrite, and return it with the
remaining length. Result: (popped name if any, remaining length, new file
contents). -/
def dequeue_deathlink (file : List Char) :
    Option (List Char) × Nat × List Char :=
  match readQueue file with
  | [] => (none, 0, file)
  | name :: rest => (some name, rest.length, joinNl rest)

/-- `n` successive `dequeue_deathlink()` calls: the list of popped results and
the final file contents. -/
def dequeueN : Nat → List Char → List (Option (List Char)) × List Char
  | 0, file => ([], file)
  | n + 1, file =>
    let d := dequeue_deathlink file
    let r := dequeueN n d.2.2
    (d.1 :: r.1, r.2)

-- ----------------- Shared state (death.py lines 32-37) -----------------

/-- One record of the outbound dedup registry `recent_outbound`:
`(nonce, source, ts)`. `uuid.uuid4()` is modelled by a `Nat` drawn from the
process-wide fresh-nonce counter; `time.time()` by a `Nat` timestamp (its
value is never inspected). -/
structure OutRec where
  nonce : Nat
  source : List Char
  ts : Nat
deriving DecidableEq

/-- The process-wide mutable state of `death.py`:
`deathlink_stats` (contributor → outbound trigger count),
`player_death_stats` (player → inbound death count, keyed by the parsed JSON
`source` value), `recent_outbound` (dedup registry, `deque(maxlen=100)`),
the connection flags, the overlay trigger file, the stats snapshot file, the
fresh-nonce counter feeding `uuid.uuid4()`, and the wall clock. -/
structure AppState where
  deathlink_stats : List (List Char × Nat)
  player_death_stats : List (Json × Nat)
  recent_outbound : List OutRec
  client_connected : Bool
  archipelago_ws : Bool
  trigger : String
  stats_file : List (List Char × Nat)
  nonceCounter : Nat
  now : Nat

/-- `d.get(k, 0)` on a Python counter dict modelled as an insertion-ordered
association list. -/
def dictGet [BEq κ] (m : List (κ × Nat)) (k : κ) : Nat :=
  match m with
  | [] => 0
  | p :: rest => if p.1 == k then p.2 else dictGet rest k

/-- `d[k] = d.get(k, 0) + 1`: update the existing slot in place, or append a
new key with count 1. -/
def dictBump [BEq κ] (m : List (κ × Nat)) (k : κ) : List (κ × Nat) :=
  match m with
  | [] => [(k, 1)]
  | p :: rest => if p.1 == k then (p.1, p.2 + 1) :: rest else p :: dictBump rest k

/-- `player_death_stats.get(source, 0)` — the inbound stats dict is keyed by
the parsed JSON `source` value, compared with Python `==` on hashable
values. -/
def pdsGet (m : List (Json × Nat)) (k : Json) : Nat :=
  match m with
  | [] => 0
  | p :: rest => if pyKeyEq p.1 k then p.2 else pdsGet rest k

/-- `player_death_stats[source] = player_death_stats.get(source, 0) + 1` -/
def pdsBump (m : List (Json × Nat)) (k : Json) : List (Json × Nat) :=
  match m with
  | [] => [(k, 1)]
  | p :: rest => if pyKeyEq p.1 k then (p.1, p.2 + 1) :: rest else p :: pdsBump rest k

-- ----------------- Inbound classification (death.py lines 161-196) -----------------

/-- `item.get("cmd") in ("Bounced", "Bounce")` -/
def cmdIsBounce (item : Json) : Bool :=
  match item.get? "cmd" with
  | some (.str s) => s == "Bounced" || s == "Bounce"
  | _ => false

/-- Whether `needle` is an initial segment of `l`. -/
def listStartsWith : List Char → List Char → Bool
  | [], _ => true
  | _ :: _, [] => false
  | a :: as, b :: bs => a == b && listStartsWith as bs

/-- Python's substring test `needle in haystack` on strings. -/
def pySubstrIn (needle : List Char) : List Char → Bool
  | [] => needle.isEmpty
  | c :: cs => listStartsWith needle (c :: cs) || pySubstrIn needle cs

/-- Python's `needle in container` for a parsed JSON value: element test on a
list (each element compared with the needle string; non-string elements
compare unequal), substring test on a string, key test on a dict; a
`TypeError` (modelled as `.error`) on `None`, booleans and numbers, which are
not containers. -/
def pyIn (needle : String) : Json → Except Unit Bool
  | .arr xs => .ok (xs.any (fun x => match x with
      | .str s => s == needle
      | _ => false))
  | .str s => .ok (pySubstrIn needle.toList s.toList)
  | .obj kvs => .ok (kvs.any (fun p => p.1 == needle))
  | _ => .error ()

/-- Whether a parsed JSON value is hashable in Python (usable as a dict key):
lists and dicts are not. -/
def Json.isHashable : Json → Bool
  | .arr _ => false
  | .obj _ => false
  | _ => true

/-- `is_our_origin = (origin == "LOCAL_BOT")` -/
def is_our_origin (origin : Option Json) : Bool :=
  match origin with
  | some (.str s) => s == "LOCAL_BOT"
  | _ => false

/-- One comparison `nonce == n` of the generator expression, against the
recorded nonce of one outbound record (only a numeric inbound value can equal
the recorded nonce; `None` and other shapes compare unequal). -/
def nonceMatches (nonce : Option Json) (r : OutRec) : Bool :=
  match nonce with
  | some (.num k) => k == Int.ofNat r.nonce
  | _ => false

/-- `is_our_nonce = any(nonce == n for (n, _, _) in recent_outbound)` -/
def is_our_nonce (recent : List OutRec) (nonce : Option Json) : Bool :=
  recent.any (nonceMatches nonce)

/-- The body of `for item in data:` inside `server_to_client`, for one item.
`.error st'` means a `TypeError` was raised with the globals in state `st'`
(it aborts the remaining items and is swallowed by the enclosing
`except`): raised by the tags membership test on a non-container, by
`player_death_stats.get(source, 0)` on an unhashable `source`, and by
`f.write(source)` on a hashable non-string `source` (after the increment, and
after `open(..., "w")` already truncated the trigger file). The 4-second
deferred banner clear (`asyncio.create_task(_clear_banner_soon())`) is a
separately scheduled task and not part of this step. -/
def handleDeathLinkRecord (st : AppState) (dl : List (String × Json)) :
    Except AppState AppState :=
  let origin := Json.get? (.obj dl) "origin"
  let nonce := Json.get? (.obj dl) "nonce"
  let source := (Json.get? (.obj dl) "source").getD (.str "UNKNOWN")
  if is_our_origin origin || is_our_nonce st.recent_outbound nonce then
    .ok st
  else
    if source.isHashable then
      let st' := { st with
        player_death_stats := pdsBump st.player_death_stats source }
      match source with
      | .str s => .ok { st' with trigger := s }
      | _ => .error { st' with trigger := "" }
    else
      .error st

/-- The guard chain of the loop body: `isinstance(item, dict)`, the cmd
check, the tags membership test (which can raise), and the payload dict
check, then the record handling above. -/
def handleItem (st : AppState) (item : Json) : Except AppState AppState :=
  if item.isDict && cmdIsBounce item then
    match pyIn "DeathLink" ((item.get? "tags").getD (.arr [])) with
    | .error _ => .error st
    | .ok tagHit =>
      if tagHit then
        match item.get? "data" with
        | some (.obj dl) => handleDeathLinkRecord st dl
        | _ => .ok st
      else .ok st
  else .ok st

/-- `for item in data: ...` — items processed left to right; a raised
`TypeError` stops the loop with the state it left behind (the exception is
then swallowed by the `except` around the whole parse-and-classify block). -/
def runItems (st : AppState) : List Json → AppState
  | [] => st
  | item :: rest =>
    match handleItem st item with
    | .ok st' => runItems st' rest
    | .error st' => st'

/-- The state an item handler leaves behind, whether it returned normally or
raised (the enclosing `except` swallows the exception but keeps the
mutations already made). -/
def handleResult : Except AppState AppState → AppState
  | .ok st => st
  | .error st => st

/-- The parse-and-classify block of `server_to_client` applied to a
successfully parsed message: `if isinstance(data, list): for item in data ...`
(non-list values are ignored). -/
def server_to_client_classify (st : AppState) (data : Json) : AppState :=
  match data with
  | .arr items => runItems st items
  | _ => st

/-- One message received from the remote server: its raw text and the result
of `json.loads` on it (`none` when parsing raises). -/
structure InMsg where
  raw : String
  parsed : Option Json

/-- The `server_to_client` loop over a finite stream of inbound messages:
each message is first forwarded verbatim to the local client, then parsed and
classified, with any parse or classification exception swallowed per message.
Returns the final state and the forwarded messages in order. -/
def server_to_client (st : AppState) : List InMsg → AppState × List String
  | [] => (st, [])
  | m :: ms =>
    let st' := match m.parsed with
      | some data => server_to_client_classify st data
      | none => st
    let r := server_to_client st' ms
    (r.1, m.raw :: r.2)

-- ----------------- Send path (death.py lines 209-251) -----------------

/-- The value a call to `send_deathlink` evaluates to: the Python function
returns `None` on every path (early `return` and falling off the end). -/
inductive PyValue where
  | none
deriving DecidableEq

/-- `deque(maxlen=100).append`: append on the right, evicting from the left
when the deque is full. -/
def dequePush (l : List OutRec) (x : OutRec) : List OutRec :=
  (l ++ [x]).drop (l.length + 1 - 100)

/-- Stable insertion used to model `sorted(deathlink_stats.items(),
key=lambda x: -x[1])` for the stats snapshot file. -/
def insertByCountDesc (x : List Char × Nat) :
    List (List Char × Nat) → List (List Char × Nat)
  | [] => [x]
  | y :: ys => if x.2 ≤ y.2 then y :: insertByCountDesc x ys else x :: y :: ys

/-- The contributor stats sorted by descending count (ties keep dict order). -/
def sortByCountDesc (m : List (List Char × Nat)) : List (List Char × Nat) :=
  m.foldl (fun acc x => insertByCountDesc x acc) []

/-- The one-element bounce envelope built by `send_deathlink` (transmitted as
`json.dumps([deathlink_payload])`). -/
def deathlink_payload (source_name : List Char) (nonce : Nat) (time : Nat) : Json :=
  .obj [("cmd", .str "Bounce"),
        ("tags", .arr [.str "DeathLink"]),
        ("data", .obj [("time", .num (Int.ofNat time)),
                       ("source", .str (String.mk source_name)),
                       ("cause", .str ("Killed by " ++ String.mk source_name)),
                       ("origin", .str "LOCAL_BOT"),
                       ("nonce", .num (Int.ofNat nonce))])]

/-- `send_deathlink(source_name)`. `transmitOk = false` means
`await archipelago_ws.send(...)` raised; the exception is caught by the
function's own `try/except`, so the contributor increment (made before the
`try`) survives while the registry, stats file and trigger are untouched.
On success the trigger file is written with the name and, after the in-call
4-second sleep, rewritten empty, so the post-call contents are empty. -/
def send_deathlink (st : AppState) (source_name : List Char) (transmitOk : Bool) :
    AppState × PyValue :=
  if !(st.archipelago_ws && st.client_connected) then (st, .none)
  else
    let nonce := st.nonceCounter
    let st1 := { st with
      deathlink_stats := dictBump st.deathlink_stats source_name,
      nonceCounter := st.nonceCounter + 1 }
    if transmitOk then
      let st2 := { st1 with
        recent_outbound := dequePush st1.recent_outbound ⟨nonce, source_name, st.now⟩,
        stats_file := sortByCountDesc (dictBump st.deathlink_stats source_name),
        trigger := "" }
      (st2, .none)
    else (st1, .none)

/-- A sequence of `send_deathlink` calls, each given its transmit outcome. -/
def runSends (st : AppState) : List (List Char × Bool) → AppState
  | [] => st
  | (n, t) :: rest => runSends (send_deathlink st n t).1 rest

-- ----------------- Dispatcher (death.py lines 255-274) -----------------

/-- The recognized dispatch pacing configuration. -/
structure Config where
  min_dispatch_seconds : Int
  max_dispatch_seconds : Int
deriving DecidableEq

/-- `random.randint(lo, hi)` (inclusive bounds, only called with `lo ≤ hi`),
driven by a seed `r`. -/
def pyRandint (lo hi : Int) (r : Nat) : Int :=
  lo + (Int.ofNat r) % (hi - lo + 1)

/-- One iteration of `staged_deathlink_dispatcher`: dequeue; if nothing,
sleep 5; if a name was popped but no client is connected, drop it and sleep 5;
otherwise send it and sleep `randint(min_s, max_s)` with `max_s` clamped up to
`min_s`. Returns the new state, the new queue file, and the chosen sleep
duration in seconds. -/
def dispatcher_iteration (cfg : Config) (st : AppState) (file : List Char)
    (transmitOk : Bool) (r : Nat) : AppState × List Char × Int :=
  match dequeue_deathlink file with
  | (none, _, file') => (st, file', 5)
  | (some name, _, file') =>
    if !st.client_connected then (st, file', 5)
    else
      let st' := (send_deathlink st name transmitOk).1
      let min_s := cfg.min_dispatch_seconds
      let max_s := cfg.max_dispatch_seconds
      let max_s' := if max_s < min_s then min_s else max_s
      (st', file', pyRandint min_s max_s' r)

-- ----------------- Derived predicates and concrete fixtures -----------------

/-- A string that survives the queue's persist/reload cycle verbatim: it is
nonempty, already stripped, and contains no line separator (`'\n'`, or `'\r'`,
which text-mode reads translate to `'\n'`). Every entry produced by
`readQueue` has this shape. -/
def cleanEntry (q : List Char) : Prop :=
  q ≠ [] ∧ pyStrip q = q ∧ '\n' ∉ q ∧ '\r' ∉ q

instance (q : List Char) : Decidable (cleanEntry q) := by
  unfold cleanEntry; infer_instance

/-- Fresh boot state with both relay connections up. -/
def stActiveEmpty : AppState :=
  ⟨[], [], [], true, true, "", [], 0, 0⟩

/-- Fresh boot state with no relay session (`client_connected = False`,
`archipelago_ws = None`). -/
def stInactive : AppState :=
  ⟨[], [], [], false, false, "", [], 0, 0⟩

/-- A parsed inbound bounce object that is an echo of a local event
(`origin == "LOCAL_BOT"`). -/
def echoItem : Json :=
  .obj [("cmd", .str "Bounced"),
        ("tags", .arr [.str "DeathLink"]),
        ("data", .obj [("origin", .str "LOCAL_BOT"), ("nonce", .str "e"),
                       ("source", .str "P")])]

/-- A parsed inbound bounce object reporting a genuine remote death of
player "Q". -/
def genuineItem : Json :=
  .obj [("cmd", .str "Bounced"),
        ("tags", .arr [.str "DeathLink"]),
        ("data", .obj [("origin", .str "REMOTE"), ("source", .str "Q")])]

/-- A dedup registry holding exactly 100 records with nonces 0..99. -/
def fullRegistry : List OutRec :=
  (List.range 100).map (fun i => ⟨i, ['A'], 0⟩)

/-- An active state whose dedup registry is full and whose nonce counter is
ahead of every recorded nonce. -/
def stFullRegistry : AppState :=
  ⟨[], [], fullRegistry, true, true, "", [], 100, 0⟩

-- ----------------- String lemmas -----------------

theorem dropWhile_head_not (p : Char → Bool) (l : List Char) :
    ∀ c, (l.dropWhile p).head? = some c → p c = false := by
  induction l with
  | nil => simp [List.dropWhile]
  | cons a as ih =>
    intro c h
    rw [List.dropWhile_cons] at h
    by_cases hp : p a
    · rw [if_pos hp] at h
      exact ih c h
    · rw [if_neg hp] at h
      simp only [List.head?_cons, Option.some.injEq] at h
      subst h
      simpa using hp

theorem dropWhile_eq_self_of_head (p : Char → Bool) (l : List Char)
    (h : ∀ c, l.head? = some c → p c = false) : l.dropWhile p = l := by
  cases l with
  | nil => rfl
  | cons a as =>
    rw [List.dropWhile_cons, if_neg]
    simpa using h a rfl

theorem dropWhile_suffix_ex (p : Char → Bool) (l : List Char) :
    ∃ t, t ++ l.dropWhile p = l := by
  induction l with
  | nil => exact ⟨[], rfl⟩
  | cons a as ih =>
    rw [List.dropWhile_cons]
    by_cases hp : p a
    · obtain ⟨t, ht⟩ := ih
      exact ⟨a :: t, by rw [if_pos hp, List.cons_append, ht]⟩
    · exact ⟨[], by rw [if_neg hp]; rfl⟩

theorem mem_of_mem_dropWhile (p : Char → Bool) (l : List Char) (c : Char)
    (h : c ∈ l.dropWhile p) : c ∈ l := by
  obtain ⟨t, ht⟩ := dropWhile_suffix_ex p l
  rw [← ht]
  exact List.mem_append_right t h

theorem pyStrip_sub (l : List Char) : ∀ c ∈ pyStrip l, c ∈ l := by
  intro c hc
  unfold pyStrip at hc
  rw [List.mem_reverse] at hc
  have h1 := mem_of_mem_dropWhile _ _ _ hc
  rw [List.mem_reverse] at h1
  exact mem_of_mem_dropWhile _ _ _ h1

theorem pyStrip_prefix_ex (l : List Char) :
    ∃ t, pyStrip l ++ t = l.dropWhile pyIsSpace := by
  obtain ⟨t, ht⟩ := dropWhile_suffix_ex pyIsSpace (l.dropWhile pyIsSpace).reverse
  refine ⟨t.reverse, ?_⟩
  unfold pyStrip
  have := congrArg List.reverse ht
  rw [List.reverse_append, List.reverse_reverse] at this
  exact this

theorem pyStrip_idem (l : List Char) : pyStrip (pyStrip l) = pyStrip l := by
  have hhead : ∀ c, (pyStrip l).head? = some c → pyIsSpace c = false := by
    intro c hc
    obtain ⟨t, ht⟩ := pyStrip_prefix_ex l
    have hh : (l.dropWhile pyIsSpace).head? = some c := by
      rw [← ht]
      cases hs : pyStrip l with
      | nil => rw [hs] at hc; simp at hc
      | cons a as =>
        rw [hs] at hc
        simp only [List.head?_cons, Option.some.injEq] at hc
        subst hc
        rfl
    exact dropWhile_head_not pyIsSpace l c hh
  have h1 : (pyStrip l).dropWhile pyIsSpace = pyStrip l :=
    dropWhile_eq_self_of_head _ _ hhead
  have hrev : (pyStrip l).reverse = ((l.dropWhile pyIsSpace).reverse).dropWhile pyIsSpace := by
    unfold pyStrip
    rw [List.reverse_reverse]
  have h2 : ((pyStrip l).reverse).dropWhile pyIsSpace = (pyStrip l).reverse := by
    rw [hrev, List.dropWhile_idempotent]
  calc pyStrip (pyStrip l)
      = (((pyStrip l).dropWhile pyIsSpace).reverse.dropWhile pyIsSpace).reverse := rfl
    _ = ((pyStrip l).reverse.dropWhile pyIsSpace).reverse := by rw [h1]
    _ = ((pyStrip l).reverse).reverse := by rw [h2]
    _ = pyStrip l := List.reverse_reverse _

theorem splitNlAux_no_nl (l : List Char) :
    '\n' ∉ (splitNlAux l).1 ∧ ∀ q ∈ (splitNlAux l).2, '\n' ∉ q := by
  induction l with
  | nil => simp [splitNlAux]
  | cons c cs ih =>
    by_cases h : c = '\n'
    · simp only [splitNlAux, if_pos h]
      exact ⟨by simp, by
        intro q hq
        rcases List.mem_cons.mp hq with h1 | h1
        · rw [h1]; exact ih.1
        · exact ih.2 q h1⟩
    · simp only [splitNlAux, if_neg h]
      refine ⟨?_, ih.2⟩
      intro hmem
      rcases List.mem_cons.mp hmem with h1 | h1
      · exact h h1.symm
      · exact ih.1 h1

theorem splitNlAux_mem (l : List Char) :
    (∀ c ∈ (splitNlAux l).1, c ∈ l) ∧
      ∀ q ∈ (splitNlAux l).2, ∀ c ∈ q, c ∈ l := by
  induction l with
  | nil => simp [splitNlAux]
  | cons a as ih =>
    by_cases h : a = '\n'
    · simp only [splitNlAux, if_pos h]
      refine ⟨by simp, ?_⟩
      intro q hq c hc
      rcases List.mem_cons.mp hq with h1 | h1
      · exact List.mem_cons_of_mem a (ih.1 c (h1 ▸ hc))
      · exact List.mem_cons_of_mem a (ih.2 q h1 c hc)
    · simp only [splitNlAux, if_neg h]
      refine ⟨?_, ?_⟩
      · intro c hc
        rcases List.mem_cons.mp hc with h1 | h1
        · exact h1 ▸ List.mem_cons_self a as
        · exact List.mem_cons_of_mem a (ih.1 c h1)
      · intro q hq c hc
        exact List.mem_cons_of_mem a (ih.2 q hq c hc)

theorem splitNlAux_no_newline (l : List Char) (h : '\n' ∉ l) :
    splitNlAux l = (l, []) := by
  induction l with
  | nil => rfl
  | cons a as ih =>
    have ha : a ≠ '\n' := fun e => h (e ▸ List.mem_cons_self a as)
    have has : '\n' ∉ as := fun e => h (List.mem_cons_of_mem a e)
    simp only [splitNlAux, if_neg ha, ih has]

theorem splitNlAux_append (a t : List Char) (h : '\n' ∉ a) :
    splitNlAux (a ++ t) = (a ++ (splitNlAux t).1, (splitNlAux t).2) := by
  induction a with
  | nil => simp
  | cons x xs ih =>
    have hx : x ≠ '\n' := fun e => h (e ▸ List.mem_cons_self x xs)
    have hxs : '\n' ∉ xs := fun e => h (List.mem_cons_of_mem x e)
    rw [List.cons_append]
    simp only [splitNlAux, if_neg hx]
    rw [ih hxs]
    simp

theorem joinNl_cons (q : List Char) (qs : List (List Char)) (h : qs ≠ []) :
    joinNl (q :: qs) = q ++ '\n' :: joinNl qs := by
  cases qs with
  | nil => exact absurd rfl h
  | cons q' qs' => rfl

theorem joinNl_no_cr (Q : List (List Char)) (h : ∀ q ∈ Q, '\r' ∉ q) :
    '\r' ∉ joinNl Q := by
  induction Q with
  | nil => simp [joinNl]
  | cons q qs ih =>
    cases qs with
    | nil => exact h q (List.mem_cons_self q [])
    | cons q' qs' =>
      rw [joinNl_cons q _ (by simp)]
      intro hmem
      rcases List.mem_append.mp hmem with h1 | h1
      · exact h q (List.mem_cons_self q _) h1
      · rcases List.mem_cons.mp h1 with h2 | h2
        · exact absurd h2.symm (by decide)
        · exact ih (fun r hr => h r (List.mem_cons_of_mem q hr)) h2

theorem normCRLF_no_cr (l : List Char) (h : '\r' ∉ l) : normCRLF l = l := by
  induction l using normCRLF.induct with
  | case1 => rfl
  | case2 c => rfl
  | case3 c₁ c₂ cs hif ih =>
    exact absurd (hif.1 ▸ List.mem_cons_self c₁ _) h
  | case4 c₁ c₂ cs hif ih =>
    rw [normCRLF, if_neg hif]
    have : '\r' ∉ c₂ :: cs := fun e => h (List.mem_cons_of_mem c₁ e)
    rw [ih this]

theorem normNl_no_cr_id (l : List Char) (h : '\r' ∉ l) : normNl l = l := by
  unfold normNl
  rw [normCRLF_no_cr l h]
  have : ∀ c ∈ l, (if c = '\r' then '\n' else c) = c := by
    intro c hc
    rw [if_neg]
    intro e
    subst e
    exact h hc
  calc l.map (fun c => if c = '\r' then '\n' else c)
      = l.map id := List.map_congr_left this
    _ = l := List.map_id l

theorem normNl_mem_no_cr (l : List Char) : ∀ c ∈ normNl l, c ≠ '\r' := by
  intro c hc
  unfold normNl at hc
  obtain ⟨c', _, hc'⟩ := List.mem_map.mp hc
  by_cases h : c' = '\r'
  · rw [if_pos h] at hc'
    rw [← hc']
    decide
  · rw [if_neg h] at hc'
    rw [← hc']
    exact h

theorem splitNl_append_nl (q T : List Char) (h : '\n' ∉ q) :
    splitNl (q ++ '\n' :: T) = q :: splitNl T := by
  unfold splitNl
  rw [splitNlAux_append q ('\n' :: T) h]
  have haux : splitNlAux ('\n' :: T) = ([], (splitNlAux T).1 :: (splitNlAux T).2) := by
    simp [splitNlAux]
  rw [haux]
  simp

theorem readQueue_clean (f : List Char) : ∀ q ∈ readQueue f, cleanEntry q := by
  intro q hq
  unfold readQueue at hq
  rw [List.mem_filter] at hq
  obtain ⟨hmem, hne⟩ := hq
  obtain ⟨p, hp, hpq⟩ := List.mem_map.mp hmem
  have hnl : '\n' ∉ p := by
    rcases List.mem_cons.mp hp with h1 | h1
    · rw [h1]
      exact (splitNlAux_no_nl (normNl f)).1
    · exact (splitNlAux_no_nl (normNl f)).2 p h1
  have hcr : '\r' ∉ p := by
    intro hc
    have hin : '\r' ∈ normNl f := by
      rcases List.mem_cons.mp hp with h1 | h1
      · exact (splitNlAux_mem (normNl f)).1 '\r' (h1 ▸ hc)
      · exact (splitNlAux_mem (normNl f)).2 p h1 '\r' hc
    exact normNl_mem_no_cr f '\r' hin rfl
  subst hpq
  refine ⟨?_, pyStrip_idem p, ?_, ?_⟩
  · intro he
    rw [he] at hne
    simp at hne
  · intro hc
    exact hnl (pyStrip_sub p '\n' hc)
  · intro hc
    exact hcr (pyStrip_sub p '\r' hc)

theorem filter_isEmpty_cons (q : List Char) (L : List (List Char)) (h : q ≠ []) :
    (q :: L).filter (fun x => !x.isEmpty) = q :: L.filter (fun x => !x.isEmpty) := by
  rw [List.filter_cons, if_pos]
  cases q with
  | nil => exact absurd rfl h
  | cons a as => simp

theorem readQueue_joinNl (Q : List (List Char)) (h : ∀ q ∈ Q, cleanEntry q) :
    readQueue (joinNl Q) = Q := by
  induction Q with
  | nil => rfl
  | cons q qs ih =>
    obtain ⟨hne, hstrip, hnl, hcr⟩ := h q (List.mem_cons_self q qs)
    cases qs with
    | nil =>
      show readQueue (joinNl [q]) = [q]
      have hj : joinNl [q] = q := rfl
      rw [hj]
      unfold readQueue
      rw [normNl_no_cr_id q hcr]
      unfold splitNl
      rw [splitNlAux_no_newline q hnl]
      show ((q :: []).map pyStrip).filter (fun x => !x.isEmpty) = [q]
      rw [List.map_cons, hstrip]
      exact filter_isEmpty_cons q _ hne
    | cons q' qs' =>
      have hrest : ∀ r ∈ q' :: qs', cleanEntry r :=
        fun r hr => h r (List.mem_cons_of_mem q hr)
      have hTcr : '\r' ∉ joinNl (q' :: qs') :=
        joinNl_no_cr _ (fun r hr => (hrest r hr).2.2.2)
      have hnocr : '\r' ∉ q ++ '\n' :: joinNl (q' :: qs') := by
        intro hc
        rcases List.mem_append.mp hc with h1 | h1
        · exact hcr h1
        · rcases List.mem_cons.mp h1 with h2 | h2
          · exact absurd h2 (by decide)
          · exact hTcr h2
      rw [joinNl_cons q _ (by simp)]
      unfold readQueue
      rw [normNl_no_cr_id _ hnocr, splitNl_append_nl q _ hnl, List.map_cons, hstrip,
        filter_isEmpty_cons q _ hne]
      have hT : readQueue (joinNl (q' :: qs')) =
          ((splitNl (joinNl (q' :: qs'))).map pyStrip).filter (fun x => !x.isEmpty) := by
        unfold readQueue
        rw [normNl_no_cr_id _ hTcr]
      rw [← hT, ih hrest]

theorem dequeue_joinNl_cons (q : List Char) (qs : List (List Char))
    (h : ∀ r ∈ q :: qs, cleanEntry r) :
    dequeue_deathlink (joinNl (q :: qs)) = (some q, qs.length, joinNl qs) := by
  unfold dequeue_deathlink
  rw [readQueue_joinNl _ h]

theorem dequeueN_joinNl (k : Nat) (Q : List (List Char))
    (h : ∀ q ∈ Q, cleanEntry q) :
    dequeueN k (joinNl Q) =
      ((Q.take k).map some ++ List.replicate (k - Q.length) none,
        joinNl (Q.drop k)) := by
  induction k generalizing Q with
  | zero => simp [dequeueN]
  | succ n ih =>
    cases Q with
    | nil =>
      have hd : dequeue_deathlink (joinNl []) = (none, 0, joinNl []) := rfl
      show ((dequeue_deathlink (joinNl [])).1 ::
          (dequeueN n (dequeue_deathlink (joinNl [])).2.2).1,
          (dequeueN n (dequeue_deathlink (joinNl [])).2.2).2) = _
      rw [hd]
      rw [ih [] (by simp)]
      simp [List.replicate_succ]
    | cons q qs =>
      have hd := dequeue_joinNl_cons q qs h
      have hqs : ∀ r ∈ qs, cleanEntry r := fun r hr => h r (List.mem_cons_of_mem q hr)
      show ((dequeue_deathlink (joinNl (q :: qs))).1 ::
          (dequeueN n (dequeue_deathlink (joinNl (q :: qs))).2.2).1,
          (dequeueN n (dequeue_deathlink (joinNl (q :: qs))).2.2).2) = _
      rw [hd]
      rw [ih qs hqs]
      simp [List.take_succ_cons, List.drop_succ_cons, List.length_cons,
        Nat.succ_sub_succ]

theorem mem_normCRLF (l : List Char) : ∀ c ∈ normCRLF l, c ∈ l := by
  induction l using normCRLF.induct with
  | case1 => simp [normCRLF]
  | case2 c => simp [normCRLF]
  | case3 c₁ c₂ cs hif ih =>
    intro c hc
    rw [normCRLF, if_pos hif] at hc
    rcases List.mem_cons.mp hc with h1 | h1
    · rw [h1]
      refine List.mem_cons_of_mem c₁ ?_
      rw [hif.2]
      exact List.mem_cons_self '\n' cs
    · exact List.mem_cons_of_mem c₁ (List.mem_cons_of_mem c₂ (ih c h1))
  | case4 c₁ c₂ cs hif ih =>
    intro c hc
    rw [normCRLF, if_neg hif] at hc
    rcases List.mem_cons.mp hc with h1 | h1
    · rw [h1]
      exact List.mem_cons_self c₁ _
    · exact List.mem_cons_of_mem c₁ (ih c h1)

theorem mem_normNl_space (l : List Char) (h : ∀ c ∈ l, pyIsSpace c) :
    ∀ c ∈ normNl l, pyIsSpace c := by
  intro c hc
  obtain ⟨c', hc', he⟩ := List.mem_map.mp hc
  by_cases hr : c' = '\r'
  · rw [if_pos hr] at he
    rw [← he]
    decide
  · rw [if_neg hr] at he
    rw [← he]
    exact h c' (mem_normCRLF l c' hc')

theorem allSpace_strip_nil (l : List Char) (h : ∀ c ∈ l, pyIsSpace c) :
    pyStrip l = [] := by
  have h1 : l.dropWhile pyIsSpace = [] := List.dropWhile_eq_nil_iff.mpr h
  unfold pyStrip
  rw [h1]
  rfl

theorem strip_nil_allSpace (l : List Char) (h : pyStrip l = []) :
    ∀ c ∈ l, pyIsSpace c := by
  have h0 : ((l.dropWhile pyIsSpace).reverse).dropWhile pyIsSpace = [] := by
    unfold pyStrip at h
    rwa [List.reverse_eq_nil_iff] at h
  have hdw : ∀ c ∈ l.dropWhile pyIsSpace, pyIsSpace c := by
    intro c' hc'
    have := List.dropWhile_eq_nil_iff.mp h0 c' (List.mem_reverse.mpr hc')
    simpa using this
  intro c hc
  have hc2 : c ∈ l.takeWhile pyIsSpace ++ l.dropWhile pyIsSpace := by
    rw [List.takeWhile_append_dropWhile]
    exact hc
  rcases List.mem_append.mp hc2 with h1 | h1
  · exact List.mem_takeWhile_imp h1
  · exact hdw c h1

theorem readQueue_allSpace (f : List Char) (h : ∀ c ∈ f, pyIsSpace c) :
    readQueue f = [] := by
  unfold readQueue
  rw [List.filter_eq_nil_iff]
  intro q hq
  obtain ⟨p, hp, hpq⟩ := List.mem_map.mp hq
  have hps : ∀ c ∈ p, pyIsSpace c := by
    intro c hc
    rcases List.mem_cons.mp hp with h1 | h1
    · exact mem_normNl_space f h c ((splitNlAux_mem (normNl f)).1 c (h1 ▸ hc))
    · exact mem_normNl_space f h c ((splitNlAux_mem (normNl f)).2 p h1 c hc)
  rw [← hpq, allSpace_strip_nil p hps]
  simp

-- ----------------- Claim theorems: durable queue (C2, C9, C10) -----------------

/-- C9: for every name and every count ≤ 0, `Enqueue(name, count)` leaves the
persisted queue contents (as read back) and length unchanged; for every count,
`Enqueue` returns the new total queue length, i.e. the previous length plus
`max(0, count)`. -/
theorem C9_enqueue_clamps_nonpositive (file name : List Char) (count : Int) :
    (count ≤ 0 → readQueue (enqueue_deathlinks file name count).1 = readQueue file) ∧
    (enqueue_deathlinks file name count).2 =
      (readQueue file).length + (max 0 count).toNat := by
  have henq : enqueue_deathlinks file name count =
      (joinNl (readQueue file ++ List.replicate (max 0 count).toNat name),
        (readQueue file ++ List.replicate (max 0 count).toNat name).length) := rfl
  constructor
  · intro hc
    have hm : (max 0 count).toNat = 0 := by
      rw [max_eq_left hc]
      rfl
    rw [henq, hm]
    simp only [List.replicate_zero, List.append_nil]
    exact readQueue_joinNl _ (readQueue_clean file)
  · rw [henq]
    simp

/-- C9 witness at `file = "a"`, `name = "b"`, `count = -5`. -/
theorem C9_enqueue_clamps_nonpositive_witness :
    readQueue (enqueue_deathlinks ['a'] ['b'] (-5)).1 = readQueue ['a'] ∧
    (enqueue_deathlinks ['a'] ['b'] (-5)).2 =
      (readQueue ['a']).length + (max 0 (-5 : Int)).toNat :=
  ⟨(C9_enqueue_clamps_nonpositive ['a'] ['b'] (-5)).1 (by decide),
   (C9_enqueue_clamps_nonpositive ['a'] ['b'] (-5)).2⟩

/-- C2 counterexample: the claim quantifies over every name, but for the
whitespace-only name `" "` with `n = 1` on an empty queue, `Enqueue` reports
length 1 while the following `Dequeue` returns `None` instead of the enqueued
copy: the persisted copy is dropped by the read-back filter, so the dequeued
sequence does not contain the enqueued copies. -/
theorem C2_counterexample :
    (enqueue_deathlinks [] [' '] 1).2 = 1 ∧
    (dequeueN 1 (enqueue_deathlinks [] [' '] 1).1).1 = [none] := by
  decide

/-- C2 (amended): for a clean name (nonempty, stripped, no line separator) and
`n ≥ 1`, enqueueing `n` copies and then draining the whole queue dequeues the
pre-existing entries followed by the `n` copies, in FIFO order; and after
exactly `n` dequeues the persisted queue length equals the pre-enqueue
length. -/
theorem C2_fifo_clean_names (file name : List Char) (n : Nat) (_h1 : 1 ≤ n)
    (hc : cleanEntry name) :
    (dequeueN ((readQueue file).length + n)
        (enqueue_deathlinks file name (Int.ofNat n)).1).1 =
      (readQueue file ++ List.replicate n name).map some ∧
    (dequeueN n (enqueue_deathlinks file name (Int.ofNat n)).1).1 =
      ((readQueue file ++ List.replicate n name).take n).map some ∧
    (readQueue (dequeueN n (enqueue_deathlinks file name (Int.ofNat n)).1).2).length =
      (readQueue file).length := by
  have hmax : (max 0 (Int.ofNat n)).toNat = n := by
    have h0 : (0 : Int) ⊔ Int.ofNat n = Int.ofNat n :=
      sup_eq_right.mpr (Int.ofNat_nonneg n)
    rw [show (max 0 (Int.ofNat n)) = (0 : Int) ⊔ Int.ofNat n from rfl, h0]
    rfl
  have henq : (enqueue_deathlinks file name (Int.ofNat n)).1 =
      joinNl (readQueue file ++ List.replicate n name) := by
    show joinNl (readQueue file ++ List.replicate (max 0 (Int.ofNat n)).toNat name) = _
    rw [hmax]
  have hclean : ∀ q ∈ readQueue file ++ List.replicate n name, cleanEntry q := by
    intro q hq
    rcases List.mem_append.mp hq with h | h
    · exact readQueue_clean file q h
    · rw [List.eq_of_mem_replicate h]
      exact hc
  have hlen : (readQueue file ++ List.replicate n name).length =
      (readQueue file).length + n := by
    simp
  refine ⟨?_, ?_, ?_⟩
  · rw [henq, dequeueN_joinNl _ _ hclean]
    show ((readQueue file ++ List.replicate n name).take
        ((readQueue file).length + n)).map some ++
        List.replicate ((readQueue file).length + n -
          (readQueue file ++ List.replicate n name).length) none = _
    rw [hlen, ← hlen, List.take_length, hlen]
    simp
  · rw [henq, dequeueN_joinNl _ _ hclean]
    show ((readQueue file ++ List.replicate n name).take n).map some ++
        List.replicate (n - (readQueue file ++ List.replicate n name).length) none = _
    rw [hlen]
    have : n - ((readQueue file).length + n) = 0 := by omega
    rw [this]
    simp
  · rw [henq, dequeueN_joinNl _ _ hclean]
    show (readQueue (joinNl ((readQueue file ++ List.replicate n name).drop n))).length = _
    have hdropclean : ∀ q ∈ (readQueue file ++ List.replicate n name).drop n,
        cleanEntry q := fun q hq => hclean q (List.mem_of_mem_drop hq)
    rw [readQueue_joinNl _ hdropclean, List.length_drop, hlen]
    omega

/-- C2 witness: `file = "p"`, `name = "q"`, `n = 2`. -/
theorem C2_fifo_clean_names_witness :
    (dequeueN ((readQueue ['p']).length + 2)
        (enqueue_deathlinks ['p'] ['q'] (Int.ofNat 2)).1).1 =
      (readQueue ['p'] ++ List.replicate 2 ['q']).map some ∧
    (dequeueN 2 (enqueue_deathlinks ['p'] ['q'] (Int.ofNat 2)).1).1 =
      ((readQueue ['p'] ++ List.replicate 2 ['q']).take 2).map some ∧
    (readQueue (dequeueN 2 (enqueue_deathlinks ['p'] ['q'] (Int.ofNat 2)).1).2).length =
      (readQueue ['p']).length :=
  C2_fifo_clean_names ['p'] ['q'] 2 (by decide) (by decide)

/-- C10: the enqueue-then-dequeue round trip preserves a name only when it is
newline-free and equal to its own stripped form. On an empty queue:
(1) a newline-free name with nonempty stripped form is dequeued as its
stripped form; (2) a whitespace-only name is dropped entirely — `Enqueue`
still reports length 1, but the subsequent read sees an empty queue;
(3) a name `a ++ '\n' ++ b` with an interior newline is split into two queue
entries, and `Dequeue` returns only the stripped first line segment. -/
theorem C10_roundtrip_strip :
    (∀ name : List Char, '\n' ∉ name → '\r' ∉ name → pyStrip name ≠ [] →
      dequeue_deathlink (enqueue_deathlinks [] name 1).1 =
        (some (pyStrip name), 0, joinNl [])) ∧
    (∀ name : List Char, pyStrip name = [] →
      (enqueue_deathlinks [] name 1).2 = 1 ∧
      dequeue_deathlink (enqueue_deathlinks [] name 1).1 =
        (none, 0, (enqueue_deathlinks [] name 1).1)) ∧
    (∀ a b : List Char, '\n' ∉ a → '\r' ∉ a → pyStrip a ≠ [] → cleanEntry b →
      readQueue (enqueue_deathlinks [] (a ++ '\n' :: b) 1).1 = [pyStrip a, b] ∧
      dequeue_deathlink (enqueue_deathlinks [] (a ++ '\n' :: b) 1).1 =
        (some (pyStrip a), 1, joinNl [b])) := by
  have henq : ∀ name : List Char, (enqueue_deathlinks [] name 1).1 = name := by
    intro name
    rfl
  refine ⟨?_, ?_, ?_⟩
  · intro name hnl hcr hs
    have hread : readQueue name = [pyStrip name] := by
      unfold readQueue
      rw [normNl_no_cr_id name hcr]
      unfold splitNl
      rw [splitNlAux_no_newline name hnl]
      show ((name :: []).map pyStrip).filter (fun x => !x.isEmpty) = [pyStrip name]
      rw [List.map_cons]
      exact filter_isEmpty_cons (pyStrip name) _ hs
    unfold dequeue_deathlink
    rw [henq, hread]
    rfl
  · intro name hs
    have hspace : ∀ c ∈ name, pyIsSpace c := strip_nil_allSpace name hs
    have hread : readQueue name = [] := readQueue_allSpace name hspace
    refine ⟨rfl, ?_⟩
    unfold dequeue_deathlink
    rw [henq, hread]
  · intro a b hnl hcr hs hb
    obtain ⟨hbne, hbstrip, hbnl, hbcr⟩ := hb
    have hnocr : '\r' ∉ a ++ '\n' :: b := by
      intro hc
      rcases List.mem_append.mp hc with h1 | h1
      · exact hcr h1
      · rcases List.mem_cons.mp h1 with h2 | h2
        · exact absurd h2 (by decide)
        · exact hbcr h2
    have hread : readQueue (a ++ '\n' :: b) = [pyStrip a, b] := by
      unfold readQueue
      rw [normNl_no_cr_id _ hnocr, splitNl_append_nl a b hnl]
      have hsb : splitNl b = [b] := by
        unfold splitNl
        rw [splitNlAux_no_newline b hbnl]
      rw [hsb, List.map_cons, List.map_cons, List.map_nil, hbstrip]
      rw [filter_isEmpty_cons _ _ hs, filter_isEmpty_cons _ _ hbne]
      rfl
    constructor
    · rw [henq]
      exact hread
    · unfold dequeue_deathlink
      rw [henq, hread]
      rfl

/-- C10 witness: part 1 at `name = " x "` (dequeued as `"x"`), part 2 at
`name = " "` (reported length 1, read back empty), part 3 at
`"x \n y"` (split into `"x"` and `"y"`; dequeue returns `"x"`). -/
theorem C10_roundtrip_strip_witness :
    dequeue_deathlink (enqueue_deathlinks [] [' ', 'x', ' '] 1).1 =
      (some (pyStrip [' ', 'x', ' ']), 0, joinNl []) ∧
    ((enqueue_deathlinks [] [' '] 1).2 = 1 ∧
      dequeue_deathlink (enqueue_deathlinks [] [' '] 1).1 =
        (none, 0, (enqueue_deathlinks [] [' '] 1).1)) ∧
    (readQueue (enqueue_deathlinks [] (['x', ' '] ++ '\n' :: ['y']) 1).1 =
        [pyStrip ['x', ' '], ['y']] ∧
      dequeue_deathlink (enqueue_deathlinks [] (['x', ' '] ++ '\n' :: ['y']) 1).1 =
        (some (pyStrip ['x', ' ']), 1, joinNl [['y']])) :=
  ⟨C10_roundtrip_strip.1 [' ', 'x', ' '] (by decide) (by decide) (by decide),
   C10_roundtrip_strip.2.1 [' '] (by decide),
   C10_roundtrip_strip.2.2 ['x', ' '] ['y'] (by decide) (by decide) (by decide)
     (by decide)⟩

-- ----------------- Stats map lemmas -----------------

theorem dictGet_bump_self [BEq κ] (m : List (κ × Nat)) (k : κ)
    (hrefl : (k == k) = true) :
    dictGet (dictBump m k) k = dictGet m k + 1 := by
  induction m with
  | nil => simp [dictBump, dictGet, hrefl]
  | cons p rest ih =>
    by_cases h : (p.1 == k) = true
    · simp [dictBump, dictGet, h]
    · simp only [dictBump, dictGet, h, if_neg, Bool.not_eq_true] at *
      simp [h, ih]

theorem dictGet_bump_other [BEq κ] [LawfulBEq κ] (m : List (κ × Nat)) (k k' : κ)
    (hne : k' ≠ k) :
    dictGet (dictBump m k) k' = dictGet m k' := by
  have hkk' : (k == k') = false := by
    simp only [beq_eq_false_iff_ne, ne_eq]
    exact fun e => hne e.symm
  induction m with
  | nil => simp [dictBump, dictGet, hkk']
  | cons p rest ih =>
    by_cases h : (p.1 == k) = true
    · have hp : p.1 = k := eq_of_beq h
      simp only [dictBump, if_pos h]
      simp only [dictGet, hp, hkk']
      simp
    · simp only [dictBump, if_neg h, dictGet]
      rw [ih]

-- ----------------- Claim theorems: send path (C3, C4) -----------------

/-- C3 (amended): `send_deathlink` with an inactive relay session (remote
socket absent or client flag down) leaves the entire state — in particular
`ContributorStats` — unchanged and raises nothing; but its return value
(`None`) is the same value the success path returns, so the failure is
reported only in a log line, not by a distinguishable return value. -/
theorem C3_send_inactive_noop (st : AppState) (name : List Char) (tOk : Bool)
    (h : st.archipelago_ws = false ∨ st.client_connected = false) :
    send_deathlink st name tOk = (st, PyValue.none) := by
  unfold send_deathlink
  rcases h with h | h <;> rw [h] <;> simp

/-- C3 witness: inactive boot state, name "A". -/
theorem C3_send_inactive_noop_witness :
    send_deathlink stInactive ['A'] true = (stInactive, PyValue.none) :=
  C3_send_inactive_noop stInactive ['A'] true (Or.inl rfl)

/-- C3 counterexample to the claim as stated: the failing call returns exactly
the same value as a successful call (`None` both times), so the caller gets no
failure indication distinguishable from success, even though the successful
call did mutate `ContributorStats` and the failing one did not. -/
theorem C3_counterexample :
    (send_deathlink stInactive ['A'] true).2 =
      (send_deathlink stActiveEmpty ['A'] true).2 ∧
    (send_deathlink stInactive ['A'] true).1 = stInactive ∧
    (send_deathlink stActiveEmpty ['A'] true).1.deathlink_stats ≠
      stActiveEmpty.deathlink_stats :=
  ⟨rfl, rfl, by decide⟩

/-- C4 (amended): with an active session, one `send_deathlink(name)` call
increments `ContributorStats[name]` by exactly 1 (created at 0 if absent) and
touches no other contributor; when the transmission succeeds it appends
exactly one new record `(nonce, name, now)` to the dedup registry, with a
nonce fresh (distinct from every recorded nonce, given the counter invariant);
when the transmission raises, the registry is unchanged while the stats
increment survives. -/
theorem C4_send_active_increments (st : AppState) (name : List Char) (tOk : Bool)
    (hws : st.archipelago_ws = true) (hcc : st.client_connected = true)
    (hfresh : ∀ r ∈ st.recent_outbound, r.nonce < st.nonceCounter) :
    dictGet (send_deathlink st name tOk).1.deathlink_stats name =
      dictGet st.deathlink_stats name + 1 ∧
    (∀ k : List Char, k ≠ name →
      dictGet (send_deathlink st name tOk).1.deathlink_stats k =
        dictGet st.deathlink_stats k) ∧
    (tOk = true →
      (send_deathlink st name tOk).1.recent_outbound =
        dequePush st.recent_outbound ⟨st.nonceCounter, name, st.now⟩ ∧
      ∀ r ∈ st.recent_outbound, r.nonce ≠ st.nonceCounter) ∧
    (tOk = false →
      (send_deathlink st name tOk).1.recent_outbound = st.recent_outbound) := by
  have hstats : (send_deathlink st name tOk).1.deathlink_stats =
      dictBump st.deathlink_stats name := by
    unfold send_deathlink
    rw [hws, hcc]
    cases tOk <;> simp
  refine ⟨?_, ?_, ?_, ?_⟩
  · rw [hstats]
    exact dictGet_bump_self _ _ (by simp)
  · intro k hk
    rw [hstats]
    exact dictGet_bump_other _ _ _ hk
  · intro ht
    subst ht
    constructor
    · unfold send_deathlink
      rw [hws, hcc]
      simp
    · intro r hr
      exact Nat.ne_of_lt (hfresh r hr)
  · intro ht
    subst ht
    unfold send_deathlink
    rw [hws, hcc]
    simp

/-- C4 witness: active empty state, name "A", successful transmission. -/
theorem C4_send_active_increments_witness :
    dictGet (send_deathlink stActiveEmpty ['A'] true).1.deathlink_stats ['A'] =
      dictGet stActiveEmpty.deathlink_stats ['A'] + 1 ∧
    (∀ k : List Char, k ≠ ['A'] →
      dictGet (send_deathlink stActiveEmpty ['A'] true).1.deathlink_stats k =
        dictGet stActiveEmpty.deathlink_stats k) ∧
    ((true : Bool) = true →
      (send_deathlink stActiveEmpty ['A'] true).1.recent_outbound =
        dequePush stActiveEmpty.recent_outbound
          ⟨stActiveEmpty.nonceCounter, ['A'], stActiveEmpty.now⟩ ∧
      ∀ r ∈ stActiveEmpty.recent_outbound, r.nonce ≠ stActiveEmpty.nonceCounter) ∧
    ((true : Bool) = false →
      (send_deathlink stActiveEmpty ['A'] true).1.recent_outbound =
        stActiveEmpty.recent_outbound) :=
  C4_send_active_increments stActiveEmpty ['A'] true rfl rfl (by simp [stActiveEmpty])

/-- C4 counterexample to the claim as stated: with an active session but a
transmission that raises (caught by the function's `try/except`), no record is
appended to the dedup registry even though `ContributorStats["A"]` was
incremented — the claim's unconditional "appends exactly one new record"
fails. -/
theorem C4_counterexample :
    stActiveEmpty.archipelago_ws = true ∧
    stActiveEmpty.client_connected = true ∧
    (send_deathlink stActiveEmpty ['A'] false).1.recent_outbound =
      stActiveEmpty.recent_outbound ∧
    dictGet (send_deathlink stActiveEmpty ['A'] false).1.deathlink_stats ['A'] = 1 :=
  ⟨rfl, rfl, rfl, by decide⟩

-- ----------------- Claim theorems: dedup registry (C7) -----------------

theorem dequePush_length_le (l : List OutRec) (x : OutRec) :
    (dequePush l x).length ≤ 100 := by
  unfold dequePush
  rw [List.length_drop]
  simp only [List.length_append, List.length_singleton]
  omega

theorem send_recent_cases (st : AppState) (name : List Char) (tOk : Bool) :
    (send_deathlink st name tOk).1.recent_outbound = st.recent_outbound ∨
    ∃ x, (send_deathlink st name tOk).1.recent_outbound =
      dequePush st.recent_outbound x := by
  unfold send_deathlink
  by_cases h : (st.archipelago_ws && st.client_connected) = true
  · rw [h]
    cases tOk
    · left
      simp
    · right
      refine ⟨⟨st.nonceCounter, name, st.now⟩, ?_⟩
      simp
  · rw [Bool.not_eq_true] at h
    rw [h]
    left
    simp

theorem dequePush_full (l : List OutRec) (x : OutRec) (h : l.length = 100) :
    dequePush l x = l.tail ++ [x] := by
  unfold dequePush
  rw [h]
  have h1 : (100 + 1 - 100) = 1 := by omega
  rw [h1, List.drop_append_of_le_length (by omega), List.drop_one]

/-- C7: the outbound dedup registry never exceeds 100 records across any
sequence of `send_deathlink` calls; a successful send on a full registry
evicts the oldest record; and the evicted nonce no longer matches the inbound
dedup membership test (`is_our_nonce`), given the registry invariants that the
oldest record's nonce is below every later nonce and below the fresh-nonce
counter. -/
theorem C7_registry_bounded :
    (∀ (calls : List (List Char × Bool)) (st : AppState),
      st.recent_outbound.length ≤ 100 →
      (runSends st calls).recent_outbound.length ≤ 100) ∧
    (∀ (st : AppState) (name : List Char),
      st.archipelago_ws = true → st.client_connected = true →
      st.recent_outbound.length = 100 →
      (send_deathlink st name true).1.recent_outbound =
        st.recent_outbound.tail ++ [⟨st.nonceCounter, name, st.now⟩]) ∧
    (∀ (st : AppState) (name : List Char) (r0 : OutRec) (rest : List OutRec),
      st.archipelago_ws = true → st.client_connected = true →
      st.recent_outbound = r0 :: rest →
      st.recent_outbound.length = 100 →
      (∀ r ∈ rest, r0.nonce < r.nonce) →
      r0.nonce < st.nonceCounter →
      is_our_nonce (send_deathlink st name true).1.recent_outbound
        (some (.num (Int.ofNat r0.nonce))) = false) := by
  have hpush : ∀ (st : AppState) (name : List Char),
      st.archipelago_ws = true → st.client_connected = true →
      (send_deathlink st name true).1.recent_outbound =
        dequePush st.recent_outbound ⟨st.nonceCounter, name, st.now⟩ := by
    intro st name hws hcc
    unfold send_deathlink
    rw [hws, hcc]
    simp
  refine ⟨?_, ?_, ?_⟩
  · intro calls
    induction calls with
    | nil => exact fun st h => h
    | cons c rest ih =>
      intro st h
      show (runSends (send_deathlink st c.1 c.2).1 rest).recent_outbound.length ≤ 100
      apply ih
      rcases send_recent_cases st c.1 c.2 with hc | ⟨x, hc⟩
      · rw [hc]
        exact h
      · rw [hc]
        exact dequePush_length_le _ x
  · intro st name hws hcc hfull
    rw [hpush st name hws hcc]
    exact dequePush_full _ _ hfull
  · intro st name r0 rest hws hcc hsplit hfull hmono hctr
    rw [hpush st name hws hcc, hsplit]
    have hfull' : (r0 :: rest).length = 100 := by
      rw [← hsplit]
      exact hfull
    rw [dequePush_full _ _ hfull']
    unfold is_our_nonce
    rw [List.any_eq_false]
    intro r hr
    have hne : r0.nonce ≠ r.nonce := by
      rcases List.mem_append.mp hr with h1 | h1
      · exact Nat.ne_of_lt (hmono r (by simpa using h1))
      · have he : r = ⟨st.nonceCounter, name, st.now⟩ := by simpa using h1
        rw [he]
        exact Nat.ne_of_lt hctr
    intro habs
    have hred : nonceMatches (some (.num (Int.ofNat r0.nonce))) r =
        (Int.ofNat r0.nonce == Int.ofNat r.nonce) := rfl
    rw [hred] at habs
    have he2 : Int.ofNat r0.nonce = Int.ofNat r.nonce := eq_of_beq habs
    rw [Int.ofNat_eq_coe, Int.ofNat_eq_coe] at he2
    exact hne (by exact_mod_cast he2)

/-- C7 witness: one send from the empty boot state keeps the bound; a send on
the full 100-record registry (nonces 0..99, counter 100) evicts the oldest
record, whose nonce 0 is then no longer matchable. -/
theorem C7_registry_bounded_witness :
    (runSends stActiveEmpty [(['A'], true)]).recent_outbound.length ≤ 100 ∧
    (send_deathlink stFullRegistry ['B'] true).1.recent_outbound =
      stFullRegistry.recent_outbound.tail ++
        [⟨stFullRegistry.nonceCounter, ['B'], stFullRegistry.now⟩] ∧
    is_our_nonce (send_deathlink stFullRegistry ['B'] true).1.recent_outbound
      (some (.num (Int.ofNat (⟨0, ['A'], 0⟩ : OutRec).nonce))) = false :=
  ⟨C7_registry_bounded.1 [(['A'], true)] stActiveEmpty (by decide),
   C7_registry_bounded.2.1 stFullRegistry ['B'] rfl rfl (by decide),
   C7_registry_bounded.2.2 stFullRegistry ['B'] ⟨0, ['A'], 0⟩
     ((List.range 99).map (fun i => ⟨i + 1, ['A'], 0⟩))
     rfl rfl (by decide) (by decide) (by decide) (by decide)⟩

-- ----------------- Claim theorems: dispatcher (C6, C8) -----------------

/-- C6: in a dispatcher iteration where `Dequeue` pops an entry while no
client is connected, the entry is not re-enqueued and no send occurs: the
state is untouched, the iteration just sleeps 5 seconds, and the persisted
queue has shrunk by exactly one — the popped name's entry is gone
(drop-on-disconnect). -/
theorem C6_drop_on_disconnect (cfg : Config) (st : AppState) (file : List Char)
    (tOk : Bool) (r : Nat) (name : List Char) (rest : List (List Char))
    (hq : readQueue file = name :: rest) (hcc : st.client_connected = false) :
    dispatcher_iteration cfg st file tOk r = (st, joinNl rest, 5) ∧
    readQueue (joinNl rest) = rest ∧
    (readQueue (joinNl rest)).length + 1 = (readQueue file).length := by
  have hd : dequeue_deathlink file = (some name, rest.length, joinNl rest) := by
    unfold dequeue_deathlink
    rw [hq]
  have hrest_clean : ∀ q ∈ rest, cleanEntry q := by
    intro q hqq
    exact readQueue_clean file q (hq ▸ List.mem_cons_of_mem name hqq)
  have hr : readQueue (joinNl rest) = rest := readQueue_joinNl rest hrest_clean
  refine ⟨?_, hr, ?_⟩
  · unfold dispatcher_iteration
    rw [hd]
    simp [hcc]
  · rw [hr, hq]
    simp

/-- C6 witness: queue `"a\nb"`, disconnected state — the iteration drops
`"a"`, leaves `"b"`, sleeps 5 s. -/
theorem C6_drop_on_disconnect_witness :
    dispatcher_iteration ⟨240, 480⟩ stInactive ('a' :: '\n' :: ['b']) true 0 =
      (stInactive, joinNl [['b']], 5) ∧
    readQueue (joinNl [['b']]) = [['b']] ∧
    (readQueue (joinNl [['b']])).length + 1 =
      (readQueue ('a' :: '\n' :: ['b'])).length :=
  C6_drop_on_disconnect ⟨240, 480⟩ stInactive ('a' :: '\n' :: ['b']) true 0
    ['a'] [['b']] (by decide) rfl

theorem pyRandint_bounds (lo hi : Int) (r : Nat) (h : lo ≤ hi) :
    lo ≤ pyRandint lo hi r ∧ pyRandint lo hi r ≤ hi := by
  unfold pyRandint
  have hpos : 0 < hi - lo + 1 := by omega
  have h1 : 0 ≤ (Int.ofNat r) % (hi - lo + 1) := Int.emod_nonneg _ (by omega)
  have h2 : (Int.ofNat r) % (hi - lo + 1) < hi - lo + 1 := Int.emod_lt_of_pos _ hpos
  omega

/-- C8: whenever the dispatcher reaches its post-send sleep, the chosen
duration lies in `[min_dispatch_seconds, max(min_dispatch_seconds,
max_dispatch_seconds)]` — in particular, an inverted configuration
(`max < min`) behaves as if `max` were clamped up to `min`. -/
theorem C8_sleep_clamped (cfg : Config) (st : AppState) (file : List Char)
    (tOk : Bool) (r : Nat) (name : List Char) (rest : List (List Char))
    (hq : readQueue file = name :: rest) (hcc : st.client_connected = true) :
    cfg.min_dispatch_seconds ≤ (dispatcher_iteration cfg st file tOk r).2.2 ∧
    (dispatcher_iteration cfg st file tOk r).2.2 ≤
      max cfg.min_dispatch_seconds cfg.max_dispatch_seconds := by
  have hd : dequeue_deathlink file = (some name, rest.length, joinNl rest) := by
    unfold dequeue_deathlink
    rw [hq]
  have hiter : (dispatcher_iteration cfg st file tOk r).2.2 =
      pyRandint cfg.min_dispatch_seconds
        (if cfg.max_dispatch_seconds < cfg.min_dispatch_seconds then
          cfg.min_dispatch_seconds else cfg.max_dispatch_seconds) r := by
    unfold dispatcher_iteration
    rw [hd]
    simp [hcc]
  set hi' := if cfg.max_dispatch_seconds < cfg.min_dispatch_seconds then
    cfg.min_dispatch_seconds else cfg.max_dispatch_seconds with hhi
  have hle : cfg.min_dispatch_seconds ≤ hi' := by
    rw [hhi]
    split <;> omega
  have hb := pyRandint_bounds cfg.min_dispatch_seconds hi' r hle
  refine ⟨by rw [hiter]; exact hb.1, ?_⟩
  rw [hiter]
  refine le_trans hb.2 ?_
  rw [hhi]
  split
  · exact le_max_left _ _
  · exact le_max_right _ _

/-- C8 witness: inverted configuration `min = 480, max = 240`, one queued
entry, connected — the sleep is within `[480, 480]`. -/
theorem C8_sleep_clamped_witness :
    (480 : Int) ≤ (dispatcher_iteration ⟨480, 240⟩ stActiveEmpty ['a'] true 7).2.2 ∧
    (dispatcher_iteration ⟨480, 240⟩ stActiveEmpty ['a'] true 7).2.2 ≤
      max (480 : Int) 240 :=
  C8_sleep_clamped ⟨480, 240⟩ stActiveEmpty ['a'] true 7 ['a'] [] (by decide) rfl

-- ----------------- Claim theorems: inbound classification (C1, C5) -----------------

theorem pyKeyEq_refl_hashable (v : Json) (h : v.isHashable = true) :
    pyKeyEq v v = true := by
  cases v with
  | null => rfl
  | bool b => simp [pyKeyEq]
  | num n => simp [pyKeyEq]
  | str s => simp [pyKeyEq]
  | arr xs => simp [Json.isHashable] at h
  | obj kvs => simp [Json.isHashable] at h

theorem pdsGet_bump_self (m : List (Json × Nat)) (k : Json)
    (hk : pyKeyEq k k = true) :
    pdsGet (pdsBump m k) k = pdsGet m k + 1 := by
  induction m with
  | nil => simp [pdsBump, pdsGet, hk]
  | cons p rest ih =>
    by_cases h : pyKeyEq p.1 k = true
    · simp [pdsBump, pdsGet, h]
    · simp only [pdsBump, pdsGet, h, Bool.not_eq_true] at *
      simp [h, ih]

theorem handleItem_guards (st : AppState) (item : Json)
    (dl : List (String × Json)) (tagHit : Bool)
    (hd : item.isDict = true)
    (hc : cmdIsBounce item = true)
    (ht : pyIn "DeathLink" ((item.get? "tags").getD (.arr [])) = .ok tagHit)
    (htag : tagHit = true)
    (hdl : item.get? "data" = some (.obj dl)) :
    handleItem st item = handleDeathLinkRecord st dl := by
  obtain ⟨kvs, hkvs⟩ : ∃ kvs, item = .obj kvs := by
    cases item <;> simp [Json.isDict] at hd
    exact ⟨_, rfl⟩
  subst hkvs
  subst htag
  unfold handleItem
  rw [hc]
  simp only [Json.isDict, Bool.true_and]
  rw [ht]
  simp only [if_true]
  rw [hdl]

/-- C1 counterexample to the claim as stated: the message
`[echoItem, genuineItem]` parses as a list containing an object (`echoItem`)
whose cmd is "Bounced", whose tags include "DeathLink", whose data is a
structured record, and whose origin is "LOCAL_BOT" — so the claim requires
`PlayerDeathStats` to be left unchanged — yet processing the message
increments the stats, because the second object of the same list is a genuine
remote death. -/
theorem C1_counterexample :
    Json.isDict echoItem = true ∧
    cmdIsBounce echoItem = true ∧
    pyIn "DeathLink" ((echoItem.get? "tags").getD (.arr [])) = .ok true ∧
    is_our_origin (Json.get? ((echoItem.get? "data").getD .null) "origin") = true ∧
    stActiveEmpty.player_death_stats = [] ∧
    (server_to_client_classify stActiveEmpty
      (.arr [echoItem, genuineItem])).player_death_stats = [(.str "Q", 1)] :=
  ⟨rfl, rfl, rfl, rfl, rfl, rfl⟩

/-- C1 (amended, per object): for each object of an inbound list message
(processed left to right until a raised `TypeError` aborts the message) that
is a dict with cmd "Bounced"/"Bounce", "DeathLink" among its tags and a dict
payload: if its origin equals "LOCAL_BOT" or its nonce matches a registry
entry, handling the object leaves the whole state — in particular
`PlayerDeathStats` — unchanged; otherwise, provided its source value
(defaulting to "UNKNOWN" when missing) is hashable (not a JSON array or
object, which would raise before the increment), handling it increments
`PlayerDeathStats[source]` by exactly 1 (created at 0 if absent) and touches
neither `ContributorStats` nor the dedup registry. The original
message-level claim fails for lists with several DeathLink objects
(see the counterexample). -/
theorem C1_inbound_per_object :
    (∀ (st : AppState) (item : Json) (dl : List (String × Json)),
      item.isDict = true →
      cmdIsBounce item = true →
      pyIn "DeathLink" ((item.get? "tags").getD (.arr [])) = .ok true →
      item.get? "data" = some (.obj dl) →
      (is_our_origin (Json.get? (.obj dl) "origin") ||
        is_our_nonce st.recent_outbound (Json.get? (.obj dl) "nonce")) = true →
      handleItem st item = .ok st) ∧
    (∀ (st : AppState) (item : Json) (dl : List (String × Json)) (source : Json),
      item.isDict = true →
      cmdIsBounce item = true →
      pyIn "DeathLink" ((item.get? "tags").getD (.arr [])) = .ok true →
      item.get? "data" = some (.obj dl) →
      (is_our_origin (Json.get? (.obj dl) "origin") ||
        is_our_nonce st.recent_outbound (Json.get? (.obj dl) "nonce")) = false →
      (Json.get? (.obj dl) "source").getD (.str "UNKNOWN") = source →
      source.isHashable = true →
      (handleResult (handleItem st item)).player_death_stats =
        pdsBump st.player_death_stats source ∧
      pdsGet (handleResult (handleItem st item)).player_death_stats source =
        pdsGet st.player_death_stats source + 1 ∧
      (handleResult (handleItem st item)).deathlink_stats = st.deathlink_stats ∧
      (handleResult (handleItem st item)).recent_outbound = st.recent_outbound) := by
  constructor
  · intro st item dl hd hc ht hdl hecho
    rw [handleItem_guards st item dl true hd hc ht rfl hdl]
    simp only [handleDeathLinkRecord]
    rw [hecho]
    simp
  · intro st item dl source hd hc ht hdl hecho hsource hhash
    rw [handleItem_guards st item dl true hd hc ht rfl hdl]
    simp only [handleDeathLinkRecord]
    rw [hsource, hecho, hhash]
    simp only [Bool.false_eq_true, if_false, if_true]
    have hget : pdsGet (pdsBump st.player_death_stats source) source =
        pdsGet st.player_death_stats source + 1 :=
      pdsGet_bump_self _ _ (pyKeyEq_refl_hashable source hhash)
    cases source with
    | null => exact ⟨rfl, hget, rfl, rfl⟩
    | bool b => exact ⟨rfl, hget, rfl, rfl⟩
    | num n => exact ⟨rfl, hget, rfl, rfl⟩
    | str s => exact ⟨rfl, hget, rfl, rfl⟩
    | arr xs => simp [Json.isHashable] at hhash
    | obj kvs2 => simp [Json.isHashable] at hhash

/-- C1 witness: the echo object leaves the boot state unchanged; the genuine
object (source "Q", no nonce) increments `PlayerDeathStats[str "Q"]` from 0
to 1. -/
theorem C1_inbound_per_object_witness :
    handleItem stActiveEmpty echoItem = .ok stActiveEmpty ∧
    ((handleResult (handleItem stActiveEmpty genuineItem)).player_death_stats =
        pdsBump stActiveEmpty.player_death_stats (.str "Q") ∧
      pdsGet (handleResult (handleItem stActiveEmpty genuineItem)).player_death_stats
          (.str "Q") =
        pdsGet stActiveEmpty.player_death_stats (.str "Q") + 1 ∧
      (handleResult (handleItem stActiveEmpty genuineItem)).deathlink_stats =
        stActiveEmpty.deathlink_stats ∧
      (handleResult (handleItem stActiveEmpty genuineItem)).recent_outbound =
        stActiveEmpty.recent_outbound) :=
  ⟨C1_inbound_per_object.1 stActiveEmpty echoItem
      [("origin", .str "LOCAL_BOT"), ("nonce", .str "e"), ("source", .str "P")]
      rfl rfl rfl rfl rfl,
   C1_inbound_per_object.2 stActiveEmpty genuineItem
      [("origin", .str "REMOTE"), ("source", .str "Q")] (.str "Q")
      rfl rfl rfl rfl rfl rfl rfl⟩

/-- C5: every inbound server message is forwarded to the local client verbatim
and unconditionally — the forwarded stream is exactly the raw messages, in
order and independent of state and classification, and the loop processes the
entire stream (one output per input, no termination on a bad message); and a
message whose parse fails (`json.loads` raised) contributes exactly its
forwarding: the state — `PlayerDeathStats`, `OverlaySignal` and all the
rest — is untouched and the loop continues with the remaining messages. -/
theorem C5_forward_verbatim_swallow_malformed :
    (∀ (st : AppState) (msgs : List InMsg),
      (server_to_client st msgs).2 = msgs.map (fun m => m.raw)) ∧
    (∀ (st : AppState) (m : InMsg) (ms : List InMsg), m.parsed = none →
      server_to_client st (m :: ms) =
        ((server_to_client st ms).1, m.raw :: (server_to_client st ms).2)) := by
  constructor
  · intro st msgs
    induction msgs generalizing st with
    | nil => rfl
    | cons m ms ih =>
      simp only [server_to_client, List.map_cons]
      cases m.parsed <;> simp [ih]
  · intro st m ms hp
    simp only [server_to_client, hp]

/-- C5 witness: a malformed message (raw `"oops"`, parse failure) followed by
a well-formed one is forwarded verbatim in order, and the malformed head
leaves the state to the tail unchanged. -/
theorem C5_forward_verbatim_swallow_malformed_witness :
    (server_to_client stActiveEmpty
      [⟨"oops", none⟩, ⟨"[]", some (.arr [])⟩]).2 = ["oops", "[]"] ∧
    server_to_client stActiveEmpty [⟨"oops", none⟩] =
      ((server_to_client stActiveEmpty []).1,
        "oops" :: (server_to_client stActiveEmpty []).2) :=
  ⟨C5_forward_verbatim_swallow_malformed.1 stActiveEmpty
      [⟨"oops", none⟩, ⟨"[]", some (.arr [])⟩],
   C5_forward_verbatim_swallow_malformed.2 stActiveEmpty ⟨"oops", none⟩ [] rfl⟩
